import Mathlib

/-!
Verification of the beam repository's post router (src/server/routers/post.ts)
and editor library (markdownToHtml, uploadImageCommandHandler,
getSuggestionData). The data store, the markdown parser, the HTML sanitizer,
the Slack poster and the editor cursor are external collaborators; they are
embedded as explicit parameters or as executable models whose doc comments say
what they model. Definitions come first, the theorems on them follow.
-/

/-! ### Definitions -/


/-- External collaborators of `markdownToHtml`: the DOMPurify sanitizer and the
marked parser (both third-party libraries), passed as explicit functions. -/
structure MarkdownLibs where
  domPurifySanitize : String → String
  markedParse : String → String

/-- Embedding of `markdownToHtml` (src/unnamed/part_000 line 8): the parse of the
markdown (with breaks enabled, an option internal to the parser collaborator)
is passed through the sanitizer, whose output is returned unchanged. -/
def markdownToHtml (libs : MarkdownLibs) (markdown : String) : String :=
  libs.domPurifySanitize (libs.markedParse markdown)

/-- The string contains the opening of a script element. -/
def containsScriptElem (s : String) : Prop :=
  "<script".data <:+: s.data

/-- The string contains an `on*` event-handler attribute: inside some tag
(an unclosed `<`), a whitespace-separated attribute whose name starts with
`on` and that is assigned a value. -/
def containsEventAttr (s : String) : Prop :=
  ∃ l mid name r, s.data = l ++ '<' :: mid ++ ' ' :: 'o' :: 'n' :: name ++ '=' :: r
    ∧ '>' ∉ mid ∧ ∀ c ∈ name, c.isAlpha = true

/-- Escape every tag-opening character of a character list. -/
def escapeLtChars : List Char → List Char
  | [] => []
  | c :: cs =>
    if c = '<' then '&' :: 'l' :: 't' :: ';' :: escapeLtChars cs
    else c :: escapeLtChars cs

/-- Modelled from the spec: `DOMPurify.sanitize` is an external collaborator
(not part of this repository); per the spec it strips or neutralizes any markup
capable of executing script. This concrete model instance neutralizes all
markup by escaping every tag-opening character. -/
def escapeSanitize (s : String) : String :=
  ⟨escapeLtChars s.data⟩

/-- A character matched by the JavaScript regular-expression class `\s`. -/
def isJsWhitespace (c : Char) : Bool :=
  c == ' ' || c == '\t' || c == '\n' || c == '\r' || c == '\x0b' || c == '\x0c'
    || c == ' ' || c == ' '
    || (0x2000 ≤ c.val && c.val ≤ 0x200a)
    || c == ' ' || c == ' ' || c == ' ' || c == ' '
    || c == '　' || c == '﻿'

/-- JavaScript `String.prototype.split` with a single-character separator
class: splits at every separator occurrence, keeping empty segments, and
always returns at least one segment. -/
def splitChars (p : Char → Bool) : List Char → List (List Char)
  | [] => [[]]
  | c :: cs =>
    if p c then [] :: splitChars p cs
    else
      match splitChars p cs with
      | t :: ts => (c :: t) :: ts
      | [] => [[c]]

inductive TriggerType where
  | mention
  | emoji
deriving DecidableEq, Repr

structure SuggestionData where
  keystrokeTriggered : Bool
  triggerIdx : Int
  type : TriggerType
  query : String
deriving DecidableEq, Repr

/-- The `textBeforeCaret` local of `getSuggestionData`:
`textareaEl.value.slice(0, positionIndex)`. -/
def textBeforeCaret (value : String) (selectionStart : Nat) : List Char :=
  value.data.take selectionStart

/-- The `tokens[tokens.length - 1]` local of `getSuggestionData`: the last
segment of the split of the text before the caret on `\s`. -/
def lastTokenOf (cs : List Char) : List Char :=
  (splitChars isJsWhitespace cs).getLastD []

/-- The `triggerIdx` local of `getSuggestionData`. -/
def triggerIdxOf (cs : List Char) : Int :=
  if (lastTokenOf cs).isSuffixOf cs then (cs.length : Int) - (lastTokenOf cs).length
  else -1

/-- The `maybeTrigger` local of `getSuggestionData`:
`textBeforeCaret[triggerIdx]`, which in JavaScript is undefined for a negative
index. -/
def maybeTriggerOf (cs : List Char) : Option Char :=
  if 0 ≤ triggerIdxOf cs then cs[(triggerIdxOf cs).toNat]? else none

/-- Embedding of `getSuggestionData` (src/unnamed/part_000 lines 57-88), as a
function of the textarea's value and caret offset (`selectionStart`). -/
def getSuggestionData (value : String) (selectionStart : Nat) : SuggestionData :=
  { keystrokeTriggered :=
      maybeTriggerOf (textBeforeCaret value selectionStart) == some '@'
        || maybeTriggerOf (textBeforeCaret value selectionStart) == some ':'
    triggerIdx := triggerIdxOf (textBeforeCaret value selectionStart)
    type :=
      if maybeTriggerOf (textBeforeCaret value selectionStart) == some '@' then .mention
      else .emoji
    query :=
      ⟨(textBeforeCaret value selectionStart).drop
        ((triggerIdxOf (textBeforeCaret value selectionStart)) + 1).toNat⟩ }

/-- Concatenation of line segments with a separator character between
consecutive segments. -/
def joinChars (sep : Char) : List (List Char) → List Char
  | [] => []
  | l :: ls =>
    match ls with
    | [] => l
    | _ :: _ => l ++ sep :: joinChars sep ls

/-- JavaScript `String.prototype.replace` with a plain-string pattern: replace
the first occurrence of the pattern, leaving the string unchanged when the
pattern does not occur. -/
def replaceFirstChars (pat rep : List Char) : List Char → List Char
  | [] => if pat.isPrefixOf ([] : List Char) then rep else []
  | c :: cs =>
    if pat.isPrefixOf (c :: cs) then rep ++ (c :: cs).drop pat.length
    else c :: replaceFirstChars pat rep cs

/-- Index of the first occurrence of the pattern, if any. -/
def firstIdxOfChars (pat : List Char) : List Char → Option Nat
  | [] => if pat.isPrefixOf ([] : List Char) then some 0 else none
  | c :: cs =>
    if pat.isPrefixOf (c :: cs) then some 0
    else (firstIdxOfChars pat cs).map (· + 1)

/-- The placeholder literal `![Uploading <filename>...]()` built by
`uploadImageCommandHandler` (src/unnamed/part_000 line 29). -/
def uploadingPlaceholder (fileName : String) : String :=
  "![Uploading " ++ fileName ++ "...]()"

/-- The record returned by the image-storage collaborator. -/
structure UploadedImage where
  url : String
  width : Nat
  dpi : Option Nat
  originalFilename : String

/-- The editing surface visible to the handler: the textarea value and the
fired error notifications. -/
structure EditorState where
  value : String
  toasts : List String

def isNewlineChar (c : Char) : Bool := c == '\n'

/-- The newline-separated line segments of a string. -/
def linesOf (s : String) : List (List Char) :=
  splitChars isNewlineChar s.data

/-- Modelled from the spec: `Cursor.replaceLine` of the external
textarea-markdown-editor collaborator replaces the text of the given line,
lines being the newline-separated segments of the value. -/
def replaceLine (lineNumber : Nat) (text : String) (value : String) : String :=
  ⟨joinChars '\n' ((splitChars isNewlineChar value.data).set lineNumber text.data)⟩

/-- Synchronous phase of `uploadImageCommandHandler` for one file
(src/unnamed/part_000 line 31): the current line is replaced with the
placeholder before the asynchronous upload resolves. -/
def uploadImageStart (currentLineNumber : Nat) (fileName : String)
    (st : EditorState) : EditorState :=
  { st with value := replaceLine currentLineNumber (uploadingPlaceholder fileName) st.value }

/-- Embedding of `replacePlaceholder` (src/unnamed/part_000 line 12): sets the
value to the value with the first occurrence of the placeholder replaced. -/
def replacePlaceholder (placeholder replaceWith : String) (st : EditorState) : EditorState :=
  { st with value := ⟨replaceFirstChars placeholder.data replaceWith.data st.value.data⟩ }

/-- The width attribute written on success (src/unnamed/part_000 lines 43-47):
halved and rounded when the reported dpi is truthy and at least 144, the
reported width otherwise. -/
def imgWidthAttr (img : UploadedImage) : Nat :=
  match img.dpi with
  | some d => if 144 ≤ d then (img.width + 1) / 2 else img.width
  | none => img.width

/-- The `<img>` markup substituted for the placeholder on success. -/
def imgTag (img : UploadedImage) : String :=
  "<img width=\"" ++ toString (imgWidthAttr img) ++ "\" alt=\"" ++ img.originalFilename
    ++ "\" src=\"" ++ img.url ++ "\">"

/-- The user-facing error notification fired on failure
(src/unnamed/part_000 line 52). -/
def uploadErrorToast (message : String) : String :=
  "Error uploading image: " ++ message

/-- Asynchronous phase of `uploadImageCommandHandler` for one file
(src/unnamed/part_000 lines 33-53), applied to whatever editor state holds when
the upload settles. -/
def uploadImageResolve (fileName : String) (outcome : Except String UploadedImage)
    (st : EditorState) : EditorState :=
  match outcome with
  | .ok img => replacePlaceholder (uploadingPlaceholder fileName) (imgTag img) st
  | .error message =>
    let st2 := replacePlaceholder (uploadingPlaceholder fileName) "" st
    { st2 with toasts := st2.toasts ++ [uploadErrorToast message] }

inductive TRPCErrorCode where
  | BAD_REQUEST
  | NOT_FOUND
  | FORBIDDEN
  | INTERNAL_SERVER_ERROR
deriving DecidableEq, Repr

/-- A TRPCError value: a stable code, and an optional explicit message. -/
structure TRPCErr where
  code : TRPCErrorCode
  message : Option String
deriving DecidableEq, Repr

/-- A stored Post row, with the fields the router reads and writes. -/
structure PostRecord where
  id : Nat
  title : String
  content : String
  contentHtml : String
  createdAt : Nat
  hidden : Bool
  authorId : String
deriving DecidableEq, Repr

/-- The authenticated request context supplied by `protectedProcedure`:
session user id and name, and the admin capability flag. -/
structure Ctx where
  userId : String
  userName : String
  isUserAdmin : Bool
deriving DecidableEq, Repr

/-- The transactional data store: the Post table, the next server-assigned id
and the clock assigning `createdAt`. -/
structure Store where
  posts : List PostRecord
  nextId : Nat
  clock : Nat
deriving DecidableEq, Repr

/-- The store's `post.findUnique({ where: { id } })`. -/
def findUniquePost (store : Store) (id : Nat) : Option PostRecord :=
  store.posts.find? (fun p => p.id == id)

def badRequestErr : TRPCErr := ⟨.BAD_REQUEST, none⟩

def forbiddenErr : TRPCErr := ⟨.FORBIDDEN, none⟩

/-- The NOT_FOUND error thrown by `detail` (post.ts lines 138-141), whose
message spells the missing id. -/
def notFoundErr (id : Nat) : TRPCErr :=
  ⟨.NOT_FOUND, some ("No post with id \x27" ++ toString id ++ "\x27")⟩

/-- Embedding of the `detail` procedure (post.ts lines 77-145): fetch the post
by id, then throw NOT_FOUND when it is missing, or when it is hidden and the
caller is neither its author nor an admin. The comment and liker
sub-selections of the query touch no claim and are not modelled. -/
def detail (ctx : Ctx) (id : Nat) (store : Store) : Except TRPCErr PostRecord :=
  match findUniquePost store id with
  | none => .error (notFoundErr id)
  | some post =>
    if post.hidden && !(post.authorId == ctx.userId) && !ctx.isUserAdmin then
      .error (notFoundErr id)
    else .ok post

/-- The projection `select: { id, title }` of `search`. -/
structure SearchResult where
  id : Nat
  title : String
deriving DecidableEq, Repr

/-- The where-filter of `search` (post.ts lines 156-160): the store combines
the three sibling field conditions of one where object conjunctively —
hidden is false, AND the title ftMatch the full-text query, AND the content
ftMatch the full-text query. -/
def searchWhere (ftMatch : String → String → Bool) (query : String) (p : PostRecord) : Bool :=
  p.hidden == false && ftMatch p.title query && ftMatch p.content query

/-- Embedding of the `search` procedure (post.ts lines 147-168); `ftMatch` is
the store's full-text search capability, an external collaborator. -/
def search (ftMatch : String → String → Bool) (ctx : Ctx) (query : String)
    (store : Store) : Except TRPCErr (List SearchResult) :=
  if query.length < 1 then .error badRequestErr
  else
    .ok (((store.posts.filter (searchWhere ftMatch query)).take 10).map
      (fun p => ⟨p.id, p.title⟩))

/-- A concrete executable full-text matcher: the query occurs as a substring
of the text. -/
def strContains (text query : String) : Bool :=
  (firstIdxOfChars query.data text.data).isSome

/-- A store with one visible post whose title ftMatch the query cats but whose
content does not. -/
def searchCexStore : Store :=
  ⟨[⟨1, "cats are great", "dogs", "<p>dogs</p>", 0, false, "alice"⟩], 2, 1⟩

/-- The validated input object of `feed` (post.ts lines 9-17). -/
structure FeedInput where
  take : Option Nat
  skip : Option Nat
  authorId : Option String
deriving DecidableEq, Repr

/-- The response of `feed`: the page and the unpaginated count. -/
structure FeedResult where
  posts : List PostRecord
  postCount : Nat
deriving DecidableEq, Repr

/-- The zod validation of `feed`'s input: take between 1 and 50 when present,
skip at least 1 when present, the whole object optional. -/
def validFeedInput (input : Option FeedInput) : Bool :=
  match input with
  | none => true
  | some i =>
    (match i.take with | none => true | some t => 1 ≤ t && t ≤ 50)
      && (match i.skip with | none => true | some s => 1 ≤ s)

/-- The optional author condition of feed's where object. -/
def authorFilter (authorId : Option String) (p : PostRecord) : Bool :=
  match authorId with
  | none => true
  | some a => p.authorId == a

/-- The where object of `feed` (post.ts lines 21-24): hidden is unconstrained
for an admin caller and required false otherwise, combined with the author
condition. -/
def feedWhere (ctx : Ctx) (authorId : Option String) (p : PostRecord) : Bool :=
  (if ctx.isUserAdmin then true else p.hidden == false) && authorFilter authorId p

/-- The descending creation-time ordering of feed's orderBy clause. -/
def createdAtDesc (a b : PostRecord) : Prop := b.createdAt ≤ a.createdAt

instance : DecidableRel createdAtDesc := fun a b => Nat.decLe b.createdAt a.createdAt

instance : IsTotal PostRecord createdAtDesc := ⟨fun a b => Nat.le_total _ _⟩

instance : IsTrans PostRecord createdAtDesc := ⟨fun _ _ _ h1 h2 => Nat.le_trans h2 h1⟩

/-- Embedding of the `feed` procedure (post.ts lines 8-75): validate the
input, filter the posts by the where object, order by creation time
descending, paginate with skip then take, and count with the same where
object, unpaginated. The author, liker and comment-count sub-selections touch
no claim and are not modelled. -/
def feed (ctx : Ctx) (input : Option FeedInput) (store : Store) :
    Except TRPCErr FeedResult :=
  if !validFeedInput input then .error badRequestErr
  else
    .ok
      { posts :=
          ((List.insertionSort createdAtDesc
              (store.posts.filter (feedWhere ctx (input.bind FeedInput.authorId)))).drop
            ((input.bind FeedInput.skip).getD 0)).take
            ((input.bind FeedInput.take).getD 50)
        postCount :=
          (store.posts.filter (feedWhere ctx (input.bind FeedInput.authorId))).length }

/-- The validated input of `add`, also the data object of `edit`: non-empty
title and non-empty content. -/
structure AddInput where
  title : String
  content : String
deriving DecidableEq, Repr

/-- Modelled from the spec: `postToSlackIfEnabled` (src/lib/slack.ts, not
under src/) best-effort notifies an external channel with the new post and
the author name; per the spec an upstream failure of the collaborator is
swallowed (logged, not surfaced), so no outcome escapes as an exception.
Returns the dispatched message log. -/
def postToSlackIfEnabled (outcome : Except String Unit) (post : PostRecord)
    (authorName : String) : List (PostRecord × String) :=
  match outcome with
  | .ok _ => [(post, authorName)]
  | .error _ => [(post, authorName)]

/-- Embedding of the `add` procedure (post.ts lines 170-194): validate, render
the content to HTML, persist a new post owned by the caller, then notify the
external channel; returns the call result, the new store and the notification
log. -/
def addPost (libs : MarkdownLibs) (ctx : Ctx) (input : AddInput)
    (outcome : Except String Unit) (store : Store) :
    Except TRPCErr PostRecord × Store × List (PostRecord × String) :=
  if input.title.isEmpty || input.content.isEmpty then
    (.error badRequestErr, store, [])
  else
    (.ok
        { id := store.nextId
          title := input.title
          content := input.content
          contentHtml := markdownToHtml libs input.content
          createdAt := store.clock
          hidden := false
          authorId := ctx.userId },
      { store with
          posts := store.posts ++
            [{ id := store.nextId
               title := input.title
               content := input.content
               contentHtml := markdownToHtml libs input.content
               createdAt := store.clock
               hidden := false
               authorId := ctx.userId }]
          nextId := store.nextId + 1
          clock := store.clock + 1 },
      postToSlackIfEnabled outcome
        { id := store.nextId
          title := input.title
          content := input.content
          contentHtml := markdownToHtml libs input.content
          createdAt := store.clock
          hidden := false
          authorId := ctx.userId } ctx.userName)

/-- Embedding of the `edit` procedure (post.ts lines 196-236): validate, fetch
the minimal author reference, fail FORBIDDEN unless the caller is the author
(a missing id also compares unequal), then overwrite title, content and the
re-rendered contentHtml. -/
def editPost (libs : MarkdownLibs) (ctx : Ctx) (id : Nat) (data : AddInput)
    (store : Store) : Except TRPCErr PostRecord × Store :=
  if data.title.isEmpty || data.content.isEmpty then
    (.error badRequestErr, store)
  else if !((findUniquePost store id).map PostRecord.authorId == some ctx.userId) then
    (.error forbiddenErr, store)
  else
    match findUniquePost store id with
    | none => (.error ⟨.INTERNAL_SERVER_ERROR, some "P2025"⟩, store)
    | some old =>
      (.ok { old with
          title := data.title
          content := data.content
          contentHtml := markdownToHtml libs data.content },
        { store with
            posts := store.posts.map (fun p =>
              if p.id == id then
                { old with
                  title := data.title
                  content := data.content
                  contentHtml := markdownToHtml libs data.content }
              else p) })

/-- Embedding of the `delete` procedure (post.ts lines 238-260): the same
ownership check as edit; on success removes the post and returns its id. -/
def deletePost (ctx : Ctx) (id : Nat) (store : Store) : Except TRPCErr Nat × Store :=
  if !((findUniquePost store id).map PostRecord.authorId == some ctx.userId) then
    (.error forbiddenErr, store)
  else
    (.ok id, { store with posts := store.posts.filter (fun p => !(p.id == id)) })

/-! ### Theorems -/

theorem lt_notMem_escapeLtChars (cs : List Char) : '<' ∉ escapeLtChars cs := by
  induction cs with
  | nil => simp [escapeLtChars]
  | cons c cs ih =>
    by_cases h : c = '<'
    · simp [escapeLtChars, h, ih]
    · simp only [escapeLtChars, if_neg h, List.mem_cons]
      rintro (h1 | h1)
      · exact h h1.symm
      · exact ih h1

theorem escapeSanitize_no_script (s : String) :
    ¬ containsScriptElem (escapeSanitize s) := by
  intro h
  exact lt_notMem_escapeLtChars s.data (h.subset (by simp))

theorem escapeSanitize_no_event (s : String) :
    ¬ containsEventAttr (escapeSanitize s) := by
  rintro ⟨l, mid, nm, r, heq, -, -⟩
  apply lt_notMem_escapeLtChars s.data
  show '<' ∈ (escapeSanitize s).data
  rw [heq]
  simp

/-- C1: for every input string, including adversarial input embedding script
constructs in otherwise-valid markdown, the output of `markdownToHtml` contains
no script element and no `on*` event-handler attribute, because the sanitizer
collaborator (which guarantees exactly that, per its spec contract) is applied
last, to the entire parser output. -/
theorem markdownToHtml_no_script_no_event_attr (libs : MarkdownLibs)
    (h1 : ∀ s, ¬ containsScriptElem (libs.domPurifySanitize s))
    (h2 : ∀ s, ¬ containsEventAttr (libs.domPurifySanitize s))
    (markdown : String) :
    ¬ containsScriptElem (markdownToHtml libs markdown) ∧
      ¬ containsEventAttr (markdownToHtml libs markdown) :=
  ⟨h1 _, h2 _⟩

/-- Witness for C1 at a concrete adversarial input. -/
theorem markdownToHtml_no_script_no_event_attr_witness :
    ¬ containsScriptElem (markdownToHtml ⟨escapeSanitize, id⟩
        "hi <script>alert(1)</script> <img onerror=bad>") ∧
      ¬ containsEventAttr (markdownToHtml ⟨escapeSanitize, id⟩
        "hi <script>alert(1)</script> <img onerror=bad>") :=
  markdownToHtml_no_script_no_event_attr ⟨escapeSanitize, id⟩
    (fun s => escapeSanitize_no_script s) (fun s => escapeSanitize_no_event s)
    "hi <script>alert(1)</script> <img onerror=bad>"

theorem splitChars_ne_nil (p : Char → Bool) (cs : List Char) : splitChars p cs ≠ [] := by
  cases cs with
  | nil => simp [splitChars]
  | cons c cs =>
    simp only [splitChars]
    split
    · simp
    · split <;> simp

theorem sepFree_of_mem_splitChars (p : Char → Bool) (cs : List Char) :
    ∀ t ∈ splitChars p cs, ∀ c ∈ t, p c = false := by
  induction cs with
  | nil => simp [splitChars]
  | cons c cs ih =>
    intro t ht d hd
    simp only [splitChars] at ht
    by_cases h : p c
    · rw [if_pos h] at ht
      rcases List.mem_cons.mp ht with rfl | ht
      · cases hd
      · exact ih t ht d hd
    · rw [if_neg h] at ht
      rcases hsplit : splitChars p cs with _ | ⟨t0, ts⟩
      · exact absurd hsplit (splitChars_ne_nil p cs)
      · rw [hsplit] at ht
        rcases List.mem_cons.mp ht with rfl | ht
        · rcases List.mem_cons.mp hd with rfl | hd
          · simpa using h
          · exact ih t0 (by rw [hsplit]; exact List.mem_cons_self t0 ts) d hd
        · exact ih t (by rw [hsplit]; exact List.mem_cons_of_mem t0 ht) d hd

theorem splitChars_eq_single (p : Char → Bool) (cs : List Char)
    (h : ∀ c ∈ cs, p c = false) : splitChars p cs = [cs] := by
  induction cs with
  | nil => rfl
  | cons c cs ih =>
    have hc : p c = false := h c (List.mem_cons_self c cs)
    have hrest := ih (fun d hd => h d (List.mem_cons_of_mem c hd))
    simp [splitChars, hc, hrest]

theorem eq_of_splitChars_eq_single (p : Char → Bool) (cs x : List Char)
    (h : splitChars p cs = [x]) : cs = x := by
  induction cs generalizing x with
  | nil =>
    simp only [splitChars] at h
    exact ((List.cons.injEq _ _ _ _).mp h).1
  | cons c cs ih =>
    simp only [splitChars] at h
    by_cases hp : p c
    · rw [if_pos hp] at h
      obtain ⟨-, h2⟩ := (List.cons.injEq _ _ _ _).mp h
      exact absurd h2 (splitChars_ne_nil p cs)
    · rw [if_neg hp] at h
      rcases hsplit : splitChars p cs with _ | ⟨t, ts⟩
      · exact absurd hsplit (splitChars_ne_nil p cs)
      · rw [hsplit] at h
        obtain ⟨h1, h2⟩ := (List.cons.injEq _ _ _ _).mp h
        have : cs = t := ih t (by rw [hsplit, h2])
        rw [this, h1]

theorem getLastD_mem {α : Type} : ∀ (l : List α) (a : α), l.getLastD a ∈ a :: l
  | [], _ => by simp
  | b :: t, a => by
    rw [List.getLastD_cons]
    exact List.mem_cons_of_mem a (getLastD_mem t b)

theorem getLastD_cons_of_ne_nil {α : Type} (a d : α) (l : List α) (h : l ≠ []) :
    (a :: l).getLastD d = l.getLastD d := by
  cases l with
  | nil => exact absurd rfl h
  | cons b t => simp only [List.getLastD_cons]

theorem lastToken_decomp (p : Char → Bool) (cs : List Char) :
    ∃ pre, cs = pre ++ (splitChars p cs).getLastD []
      ∧ (pre = [] ∨ ∃ pre2 c, pre = pre2 ++ [c] ∧ p c = true) := by
  induction cs with
  | nil => exact ⟨[], rfl, Or.inl rfl⟩
  | cons c cs ih =>
    obtain ⟨pre, hpre, hsep⟩ := ih
    by_cases hp : p c
    · have hne := splitChars_ne_nil p cs
      have hlast : (splitChars p (c :: cs)).getLastD [] = (splitChars p cs).getLastD [] := by
        simp only [splitChars, if_pos hp]
        exact getLastD_cons_of_ne_nil _ _ _ hne
      refine ⟨c :: pre, by rw [hlast, List.cons_append, ← hpre], Or.inr ?_⟩
      rcases hsep with rfl | ⟨pre2, c', hpre2, hc'⟩
      · exact ⟨[], c, rfl, hp⟩
      · exact ⟨c :: pre2, c', by rw [hpre2]; rfl, hc'⟩
    · rcases hsplit : splitChars p cs with _ | ⟨t, ts⟩
      · exact absurd hsplit (splitChars_ne_nil p cs)
      rcases ts with _ | ⟨t2, ts2⟩
      · have hcs : cs = t := eq_of_splitChars_eq_single p cs t hsplit
        have hlast : (splitChars p (c :: cs)).getLastD [] = c :: t := by
          simp only [splitChars, if_neg hp, hsplit]
          rfl
        exact ⟨[], by rw [hlast, hcs]; rfl, Or.inl rfl⟩
      · have hlast : (splitChars p (c :: cs)).getLastD [] = (splitChars p cs).getLastD [] := by
          simp only [splitChars, if_neg hp, hsplit]
          rw [getLastD_cons_of_ne_nil _ _ _ (by simp : t2 :: ts2 ≠ []),
            getLastD_cons_of_ne_nil _ _ _ (by simp : t2 :: ts2 ≠ [])]
        rcases hsep with rfl | ⟨pre2, c', hpre2, hc'⟩
        · exfalso
          simp only [List.nil_append] at hpre
          have hmem := getLastD_mem (splitChars p cs) ([] : List Char)
          have hfree : ∀ d ∈ (splitChars p cs).getLastD [], p d = false := by
            rcases List.mem_cons.mp hmem with heq | hmem2
            · rw [heq]
              intro d hd
              cases hd
            · exact sepFree_of_mem_splitChars p cs _ hmem2
          have hfree2 : ∀ d ∈ cs, p d = false := by
            rw [hpre]
            exact hfree
          have hsingle := splitChars_eq_single p cs hfree2
          rw [hsplit] at hsingle
          simp at hsingle
        · refine ⟨c :: pre, by rw [hlast, List.cons_append, ← hpre], Or.inr ?_⟩
          exact ⟨c :: pre2, c', by rw [hpre2]; rfl, hc'⟩

theorem lastTokenOf_decomp (cs : List Char) :
    ∃ pre, cs = pre ++ lastTokenOf cs
      ∧ (∀ c ∈ lastTokenOf cs, isJsWhitespace c = false)
      ∧ (pre = [] ∨ ∃ pre2 c, pre = pre2 ++ [c] ∧ isJsWhitespace c = true) := by
  obtain ⟨pre, hpre, hsep⟩ := lastToken_decomp isJsWhitespace cs
  refine ⟨pre, hpre, ?_, hsep⟩
  have hmem := getLastD_mem (splitChars isJsWhitespace cs) ([] : List Char)
  rcases List.mem_cons.mp hmem with heq | hmem2
  · unfold lastTokenOf
    rw [heq]
    intro d hd
    cases hd
  · exact sepFree_of_mem_splitChars _ cs _ hmem2

theorem triggerIdxOf_eq (cs : List Char) :
    triggerIdxOf cs = (cs.length : Int) - ((lastTokenOf cs).length : Int) := by
  obtain ⟨pre, hpre, -, -⟩ := lastTokenOf_decomp cs
  have hsuf : (lastTokenOf cs).isSuffixOf cs := by
    rw [List.isSuffixOf_iff_suffix]
    exact ⟨pre, hpre.symm⟩
  simp [triggerIdxOf, hsuf]

theorem maybeTriggerOf_eq_head (cs : List Char) :
    maybeTriggerOf cs = (lastTokenOf cs).head? := by
  obtain ⟨pre, hpre, -, -⟩ := lastTokenOf_decomp cs
  have hlen : cs.length = pre.length + (lastTokenOf cs).length := by
    conv_lhs => rw [hpre]
    exact List.length_append _ _
  have hidx : triggerIdxOf cs = (pre.length : Int) := by
    rw [triggerIdxOf_eq]
    omega
  unfold maybeTriggerOf
  rw [hidx, if_pos (by exact_mod_cast Nat.zero_le pre.length)]
  rw [Int.toNat_ofNat]
  conv_lhs => rw [hpre]
  rw [List.getElem?_append_right (le_refl pre.length)]
  simp [List.head?_eq_getElem?]

/-- C8: trigger detection is a pure function of the text and caret offset,
isolating the word before the caret at the nearest whitespace boundary and
classifying by its leading character; on the three reference inputs it yields
an active mention trigger with query al and triggerIdx 6, an active emoji
trigger with query sm, and no active trigger. -/
theorem getSuggestionData_trigger_detection :
    getSuggestionData "hello @al" 9 = ⟨true, 6, TriggerType.mention, "al"⟩
      ∧ getSuggestionData "type :sm" 8 = ⟨true, 5, TriggerType.emoji, "sm"⟩
      ∧ (getSuggestionData "no trigger here" 15).keystrokeTriggered = false
      ∧ ∀ value selectionStart,
          (getSuggestionData value selectionStart).keystrokeTriggered =
            ((lastTokenOf (textBeforeCaret value selectionStart)).head? == some '@'
              || (lastTokenOf (textBeforeCaret value selectionStart)).head? == some ':') := by
  refine ⟨by decide, by decide, by decide, ?_⟩
  intro value selectionStart
  show (maybeTriggerOf (textBeforeCaret value selectionStart) == some '@'
      || maybeTriggerOf (textBeforeCaret value selectionStart) == some ':') = _
  rw [maybeTriggerOf_eq_head]

/-- C10: at every text and caret offset where no trigger is active,
getSuggestionData still returns populated remaining fields: keystrokeTriggered
is false but type is emoji, triggerIdx is the start offset of the last
whitespace-delimited word before the caret, and query is the text strictly
between triggerIdx+1 and the caret. -/
theorem getSuggestionData_no_trigger (value : String) (selectionStart : Nat)
    (h : (getSuggestionData value selectionStart).keystrokeTriggered = false) :
    (getSuggestionData value selectionStart).type = TriggerType.emoji
      ∧ (∃ pre word, textBeforeCaret value selectionStart = pre ++ word
          ∧ (∀ c ∈ word, isJsWhitespace c = false)
          ∧ (pre = [] ∨ ∃ pre2 c, pre = pre2 ++ [c] ∧ isJsWhitespace c = true)
          ∧ (getSuggestionData value selectionStart).triggerIdx = (pre.length : Int)
          ∧ (getSuggestionData value selectionStart).query.data = word.drop 1)
      ∧ (getSuggestionData value selectionStart).query.data
          = (textBeforeCaret value selectionStart).drop
              (((getSuggestionData value selectionStart).triggerIdx + 1).toNat) := by
  obtain ⟨pre, hpre, hfree, hsep⟩ := lastTokenOf_decomp (textBeforeCaret value selectionStart)
  have hlen : (textBeforeCaret value selectionStart).length
      = pre.length + (lastTokenOf (textBeforeCaret value selectionStart)).length := by
    conv_lhs => rw [hpre]
    exact List.length_append _ _
  have hidx : triggerIdxOf (textBeforeCaret value selectionStart) = (pre.length : Int) := by
    rw [triggerIdxOf_eq]
    omega
  have h' : (maybeTriggerOf (textBeforeCaret value selectionStart) == some '@'
      || maybeTriggerOf (textBeforeCaret value selectionStart) == some ':') = false := h
  refine ⟨?_, ⟨pre, lastTokenOf (textBeforeCaret value selectionStart), hpre, hfree, hsep, hidx, ?_⟩, rfl⟩
  · show (if maybeTriggerOf (textBeforeCaret value selectionStart) == some '@'
        then TriggerType.mention else TriggerType.emoji) = TriggerType.emoji
    rw [(Bool.or_eq_false_iff.mp h').1]
    rfl
  · show (textBeforeCaret value selectionStart).drop
        ((triggerIdxOf (textBeforeCaret value selectionStart) + 1).toNat) = _
    rw [hidx, Int.toNat_ofNat_add_one]
    conv_lhs => rw [hpre]
    rw [← List.drop_drop, List.drop_left]

/-- Witness for C10 at the reference no-trigger input. -/
theorem getSuggestionData_no_trigger_witness :
    (getSuggestionData "no trigger here" 15).type = TriggerType.emoji
      ∧ (∃ pre word, textBeforeCaret "no trigger here" 15 = pre ++ word
          ∧ (∀ c ∈ word, isJsWhitespace c = false)
          ∧ (pre = [] ∨ ∃ pre2 c, pre = pre2 ++ [c] ∧ isJsWhitespace c = true)
          ∧ (getSuggestionData "no trigger here" 15).triggerIdx = (pre.length : Int)
          ∧ (getSuggestionData "no trigger here" 15).query.data = word.drop 1)
      ∧ (getSuggestionData "no trigger here" 15).query.data
          = (textBeforeCaret "no trigger here" 15).drop
              (((getSuggestionData "no trigger here" 15).triggerIdx + 1).toNat) :=
  getSuggestionData_no_trigger "no trigger here" 15 (by decide)

theorem splitChars_append_sepFree (p : Char → Bool) (a cs : List Char)
    (h : ∀ c ∈ a, p c = false) :
    splitChars p (a ++ cs)
      = (a ++ (splitChars p cs).headD []) :: (splitChars p cs).tail := by
  induction a with
  | nil =>
    rcases hsplit : splitChars p cs with _ | ⟨t, ts⟩
    · exact absurd hsplit (splitChars_ne_nil p cs)
    · simp [hsplit]
  | cons c a ih =>
    have hc : ¬ p c = true := by simp [h c (List.mem_cons_self c a)]
    rw [List.cons_append]
    simp only [splitChars, if_neg hc]
    rw [ih (fun d hd => h d (List.mem_cons_of_mem c hd))]
    rfl

theorem splitChars_joinChars (p : Char → Bool) (sep : Char) (hsep : p sep = true)
    (ls : List (List Char)) (hne : ls ≠ [])
    (hfree : ∀ l ∈ ls, ∀ c ∈ l, p c = false) :
    splitChars p (joinChars sep ls) = ls := by
  induction ls with
  | nil => exact absurd rfl hne
  | cons l ls ih =>
    cases ls with
    | nil =>
      show splitChars p l = [l]
      exact splitChars_eq_single p l (hfree l (List.mem_cons_self l []))
    | cons l2 ls2 =>
      show splitChars p (l ++ sep :: joinChars sep (l2 :: ls2)) = l :: l2 :: ls2
      rw [splitChars_append_sepFree p l _ (hfree l (List.mem_cons_self _ _))]
      have hstep : splitChars p (sep :: joinChars sep (l2 :: ls2))
          = [] :: splitChars p (joinChars sep (l2 :: ls2)) := by
        simp [splitChars, hsep]
      have hrec : splitChars p (joinChars sep (l2 :: ls2)) = l2 :: ls2 :=
        ih (by simp) (fun x hx => hfree x (List.mem_cons_of_mem l hx))
      rw [hstep, hrec]
      simp

theorem replaceFirstChars_eq (pat rep : List Char) :
    ∀ (s : List Char) (i : Nat), firstIdxOfChars pat s = some i →
      replaceFirstChars pat rep s = s.take i ++ rep ++ s.drop (i + pat.length) := by
  intro s
  induction s with
  | nil =>
    intro i h
    simp only [firstIdxOfChars] at h
    split at h
    · next hpre =>
      cases h
      have : pat = [] := List.prefix_nil.mp (List.isPrefixOf_iff_prefix.mp hpre)
      simp [replaceFirstChars, hpre, this]
    · cases h
  | cons c cs ih =>
    intro i h
    simp only [firstIdxOfChars] at h
    split at h
    · next hpre =>
      cases h
      simp [replaceFirstChars, hpre]
    · next hpre =>
      rcases hj : firstIdxOfChars pat cs with _ | j
      · rw [hj] at h
        cases h
      · rw [hj] at h
        simp only [Option.map_some'] at h
        cases h
        simp only [replaceFirstChars, if_neg hpre]
        rw [ih j hj]
        have harith : j + 1 + pat.length = (j + pat.length) + 1 := by omega
        rw [harith, List.take_succ_cons, List.drop_succ_cons, List.cons_append]
        simp [List.append_assoc]

theorem uploadingPlaceholder_sepFree (fileName : String)
    (hfile : ∀ c ∈ fileName.data, isNewlineChar c = false) :
    ∀ c ∈ (uploadingPlaceholder fileName).data, isNewlineChar c = false := by
  intro c hc
  have hdata : (uploadingPlaceholder fileName).data
      = "![Uploading ".data ++ (fileName.data ++ "...]()".data) := by
    simp [uploadingPlaceholder]
  rw [hdata] at hc
  rcases List.mem_append.mp hc with hc | hc
  · have hlit : ∀ c ∈ "![Uploading ".data, isNewlineChar c = false := by decide
    exact hlit c hc
  · rcases List.mem_append.mp hc with hc | hc
    · exact hfile c hc
    · have hlit : ∀ c ∈ "...]()".data, isNewlineChar c = false := by decide
      exact hlit c hc

/-- C9: for each uploaded file the handler synchronously replaces the current
line with the literal placeholder before the asynchronous upload resolves; on
success the placeholder's first occurrence is replaced with an img tag whose
alt is the original filename, src the returned URL, and width the rounded half
of the reported width when the reported dpi is at least 144 and the reported
width otherwise; on failure the placeholder is replaced with empty text and an
error notification containing the failure reason fires. -/
theorem uploadImage_lifecycle (currentLineNumber : Nat) (fileName : String)
    (st st2 : EditorState) (img : UploadedImage) (message : String) (i : Nat)
    (hfile : ∀ c ∈ fileName.data, isNewlineChar c = false)
    (hidx : firstIdxOfChars (uploadingPlaceholder fileName).data st2.value.data = some i) :
    uploadingPlaceholder fileName = "![Uploading " ++ fileName ++ "...]()"
      ∧ linesOf (uploadImageStart currentLineNumber fileName st).value
          = (linesOf st.value).set currentLineNumber (uploadingPlaceholder fileName).data
      ∧ (uploadImageStart currentLineNumber fileName st).toasts = st.toasts
      ∧ (uploadImageResolve fileName (Except.ok img) st2).value.data
          = st2.value.data.take i ++ (imgTag img).data
              ++ st2.value.data.drop (i + (uploadingPlaceholder fileName).data.length)
      ∧ (uploadImageResolve fileName (Except.ok img) st2).toasts = st2.toasts
      ∧ imgTag img = "<img width=\"" ++ toString (imgWidthAttr img) ++ "\" alt=\""
          ++ img.originalFilename ++ "\" src=\"" ++ img.url ++ "\">"
      ∧ (∀ d, img.dpi = some d → 144 ≤ d → imgWidthAttr img = (img.width + 1) / 2)
      ∧ ((∀ d, img.dpi = some d → d < 144) → imgWidthAttr img = img.width)
      ∧ (uploadImageResolve fileName (Except.error message) st2).value.data
          = st2.value.data.take i
              ++ st2.value.data.drop (i + (uploadingPlaceholder fileName).data.length)
      ∧ (uploadImageResolve fileName (Except.error message) st2).toasts
          = st2.toasts ++ [uploadErrorToast message]
      ∧ uploadErrorToast message = "Error uploading image: " ++ message := by
  have hpl := uploadingPlaceholder_sepFree fileName hfile
  refine ⟨rfl, ?_, rfl, ?_, rfl, rfl, ?_, ?_, ?_, rfl, rfl⟩
  · show splitChars isNewlineChar
        (joinChars '\n' ((splitChars isNewlineChar st.value.data).set currentLineNumber
          (uploadingPlaceholder fileName).data)) = _
    apply splitChars_joinChars isNewlineChar '\n' (by decide)
    · intro hcontra
      have hlen := congrArg List.length hcontra
      rw [List.length_set] at hlen
      exact splitChars_ne_nil isNewlineChar st.value.data (List.length_eq_zero.mp hlen)
    · intro l hl
      rcases List.mem_or_eq_of_mem_set hl with hl | rfl
      · exact sepFree_of_mem_splitChars isNewlineChar st.value.data l hl
      · exact hpl
  · show (replaceFirstChars (uploadingPlaceholder fileName).data (imgTag img).data
        st2.value.data) = _
    exact replaceFirstChars_eq _ _ _ i hidx
  · intro d hd h144
    simp [imgWidthAttr, hd, h144]
  · intro hlt
    unfold imgWidthAttr
    rcases hd : img.dpi with _ | d
    · rfl
    · show (if 144 ≤ d then (img.width + 1) / 2 else img.width) = img.width
      rw [if_neg (Nat.not_le.mpr (hlt d hd))]
  · show (replaceFirstChars (uploadingPlaceholder fileName).data "".data
        st2.value.data) = _
    rw [replaceFirstChars_eq _ _ _ i hidx]
    simp

/-- Witness for C9 at a concrete file, editor state and upload outcome. -/
theorem uploadImage_lifecycle_witness :
    uploadingPlaceholder "cat.png" = "![Uploading " ++ "cat.png" ++ "...]()"
      ∧ linesOf (uploadImageStart 0 "cat.png" ⟨"hello\nworld", []⟩).value
          = (linesOf ("hello\nworld" : String)).set 0 (uploadingPlaceholder "cat.png").data
      ∧ (uploadImageStart 0 "cat.png" ⟨"hello\nworld", []⟩).toasts = ([] : List String)
      ∧ (uploadImageResolve "cat.png" (Except.ok ⟨"https://img/cat.png", 100, some 144, "cat.png"⟩)
            ⟨"![Uploading cat.png...]()\nworld", []⟩).value.data
          = ("![Uploading cat.png...]()\nworld" : String).data.take 0
              ++ (imgTag ⟨"https://img/cat.png", 100, some 144, "cat.png"⟩).data
              ++ ("![Uploading cat.png...]()\nworld" : String).data.drop
                  (0 + (uploadingPlaceholder "cat.png").data.length)
      ∧ (uploadImageResolve "cat.png" (Except.ok ⟨"https://img/cat.png", 100, some 144, "cat.png"⟩)
            ⟨"![Uploading cat.png...]()\nworld", []⟩).toasts = ([] : List String)
      ∧ imgTag ⟨"https://img/cat.png", 100, some 144, "cat.png"⟩
          = "<img width=\""
              ++ toString (imgWidthAttr ⟨"https://img/cat.png", 100, some 144, "cat.png"⟩)
              ++ "\" alt=\"" ++ "cat.png" ++ "\" src=\"" ++ "https://img/cat.png" ++ "\">"
      ∧ (∀ d, (some 144 : Option Nat) = some d → 144 ≤ d →
          imgWidthAttr ⟨"https://img/cat.png", 100, some 144, "cat.png"⟩ = (100 + 1) / 2)
      ∧ ((∀ d, (some 144 : Option Nat) = some d → d < 144) →
          imgWidthAttr ⟨"https://img/cat.png", 100, some 144, "cat.png"⟩ = 100)
      ∧ (uploadImageResolve "cat.png" (Except.error "boom")
            ⟨"![Uploading cat.png...]()\nworld", []⟩).value.data
          = ("![Uploading cat.png...]()\nworld" : String).data.take 0
              ++ ("![Uploading cat.png...]()\nworld" : String).data.drop
                  (0 + (uploadingPlaceholder "cat.png").data.length)
      ∧ (uploadImageResolve "cat.png" (Except.error "boom")
            ⟨"![Uploading cat.png...]()\nworld", []⟩).toasts
          = ([] : List String) ++ [uploadErrorToast "boom"]
      ∧ uploadErrorToast "boom" = "Error uploading image: " ++ "boom" :=
  uploadImage_lifecycle 0 "cat.png" ⟨"hello\nworld", []⟩
    ⟨"![Uploading cat.png...]()\nworld", []⟩
    ⟨"https://img/cat.png", 100, some 144, "cat.png"⟩ "boom" 0
    (by decide) (by decide)

theorem detail_eq_of_none (ctx : Ctx) (id : Nat) (store : Store)
    (h : findUniquePost store id = none) :
    detail ctx id store = .error (notFoundErr id) := by
  unfold detail
  rw [h]

theorem detail_eq_of_some (ctx : Ctx) (id : Nat) (store : Store) (p : PostRecord)
    (h : findUniquePost store id = some p) :
    detail ctx id store
      = if p.hidden && !(p.authorId == ctx.userId) && !ctx.isUserAdmin then
          .error (notFoundErr id)
        else .ok p := by
  unfold detail
  rw [h]

/-- C2: detail fails with NotFound exactly when no post with that id exists,
or the post is hidden and the caller is neither its author nor an admin; and
every such failure carries the same error value (code and message) as a
genuinely missing id, so hidden posts are indistinguishable from nonexistent
ones to unauthorized callers. -/
theorem detail_notFound_iff (ctx : Ctx) (id : Nat) (store : Store) :
    ((∃ e, detail ctx id store = .error e)
        ↔ findUniquePost store id = none
          ∨ ∃ p, findUniquePost store id = some p ∧ p.hidden = true
              ∧ p.authorId ≠ ctx.userId ∧ ctx.isUserAdmin = false)
      ∧ ∀ e, detail ctx id store = .error e → e = notFoundErr id := by
  rcases hf : findUniquePost store id with _ | p
  · rw [detail_eq_of_none ctx id store hf]
    refine ⟨⟨fun _ => Or.inl rfl, fun _ => ⟨notFoundErr id, rfl⟩⟩, ?_⟩
    intro e he
    injection he with h
    exact h.symm
  · rw [detail_eq_of_some ctx id store p hf]
    by_cases hb : (p.hidden && !(p.authorId == ctx.userId) && !ctx.isUserAdmin) = true
    · rw [if_pos hb]
      simp only [Bool.and_eq_true, Bool.not_eq_true', beq_eq_false_iff_ne, ne_eq,
        Bool.not_eq_true] at hb
      obtain ⟨⟨hhid, hne⟩, hadm⟩ := hb
      refine ⟨⟨fun _ => Or.inr ⟨p, rfl, hhid, hne, hadm⟩,
        fun _ => ⟨notFoundErr id, rfl⟩⟩, ?_⟩
      intro e he
      injection he with h
      exact h.symm
    · rw [if_neg hb]
      refine ⟨⟨?_, ?_⟩, ?_⟩
      · rintro ⟨e, he⟩
        exact Except.noConfusion he
      · rintro (hnone | ⟨q, hq, hhid, hne, hadm⟩)
        · exact Option.noConfusion hnone
        · injection hq with h
          subst h
          exact absurd (by simp [hhid, hne, hadm]) hb
      · intro e he
        exact Except.noConfusion he

/-- Witness for C2: a hidden post of another author is reported to a non-admin
caller with the very NOT_FOUND error of a missing id. -/
theorem detail_notFound_iff_witness :
    ((∃ e, detail ⟨"bob", "Bob", false⟩ 7
          ⟨[⟨7, "t", "c", "<p>c</p>", 0, true, "alice"⟩], 8, 1⟩ = .error e)
        ↔ findUniquePost ⟨[⟨7, "t", "c", "<p>c</p>", 0, true, "alice"⟩], 8, 1⟩ 7 = none
          ∨ ∃ p, findUniquePost ⟨[⟨7, "t", "c", "<p>c</p>", 0, true, "alice"⟩], 8, 1⟩ 7
                = some p
              ∧ p.hidden = true ∧ p.authorId ≠ "bob" ∧ false = false)
      ∧ ∀ e, detail ⟨"bob", "Bob", false⟩ 7
          ⟨[⟨7, "t", "c", "<p>c</p>", 0, true, "alice"⟩], 8, 1⟩ = .error e
        → e = notFoundErr 7 :=
  detail_notFound_iff ⟨"bob", "Bob", false⟩ 7
    ⟨[⟨7, "t", "c", "<p>c</p>", 0, true, "alice"⟩], 8, 1⟩

/-- C4 counterexample: under the conjunctive where-filter the post of
`searchCexStore` is not returned for the query cats, though it is non-hidden
and its title ftMatch; the claim that search returns exactly the posts whose
title or content match is therefore false on this input. -/
theorem search_or_counterexample :
    search strContains ⟨"bob", "Bob", false⟩ "cats" searchCexStore = .ok []
      ∧ (searchCexStore.posts.filter (fun p => p.hidden == false
          && (strContains p.title "cats" || strContains p.content "cats"))).length = 1 := by
  constructor
  · rfl
  · rfl

/-- C4 as amended: search with a non-empty query returns at most 10 results,
id and title only, each backed by a stored post that is non-hidden and whose
title and content both match the query under the store's full-text search
(the sibling field conditions combine conjunctively), and the result is
independent of the caller's role. -/
theorem search_take10_nonHidden_and_match (ftMatch : String → String → Bool)
    (ctx ctx2 : Ctx) (query : String) (store : Store) (r : List SearchResult)
    (h : search ftMatch ctx query store = .ok r) :
    r.length ≤ 10
      ∧ r = ((store.posts.filter (searchWhere ftMatch query)).take 10).map
          (fun p => ⟨p.id, p.title⟩)
      ∧ (∀ x ∈ r, ∃ p, p ∈ store.posts ∧ p.hidden = false
          ∧ ftMatch p.title query = true ∧ ftMatch p.content query = true
          ∧ x.id = p.id ∧ x.title = p.title)
      ∧ search ftMatch ctx2 query store = .ok r := by
  unfold search at h ⊢
  split at h
  · exact Except.noConfusion h
  · next hq =>
    rw [if_neg hq]
    injection h with h
    subst h
    refine ⟨?_, rfl, ?_, rfl⟩
    · rw [List.length_map]
      have := List.length_take 10 (store.posts.filter (searchWhere ftMatch query))
      omega
    · intro x hx
      rcases List.mem_map.mp hx with ⟨p, hp, rfl⟩
      have hp2 : p ∈ store.posts.filter (searchWhere ftMatch query) :=
        List.mem_of_mem_take hp
      rw [List.mem_filter] at hp2
      obtain ⟨hmem, hcond⟩ := hp2
      simp only [searchWhere, Bool.and_eq_true, beq_iff_eq] at hcond
      exact ⟨p, hmem, hcond.1.1, hcond.1.2, hcond.2, rfl, rfl⟩

/-- Witness for C4's amended theorem on a store whose post ftMatch the query
in both title and content. -/
theorem search_take10_nonHidden_and_match_witness :
    ([⟨1, "cats"⟩] : List SearchResult).length ≤ 10
      ∧ ([⟨1, "cats"⟩] : List SearchResult)
          = ((Store.posts ⟨[⟨1, "cats", "cats here", "<p>cats here</p>", 0, false, "a"⟩], 2, 1⟩
              |>.filter (searchWhere strContains "cats")).take 10).map
              (fun p => ⟨p.id, p.title⟩)
      ∧ (∀ x ∈ ([⟨1, "cats"⟩] : List SearchResult), ∃ p,
          p ∈ Store.posts ⟨[⟨1, "cats", "cats here", "<p>cats here</p>", 0, false, "a"⟩], 2, 1⟩
            ∧ p.hidden = false
            ∧ strContains p.title "cats" = true ∧ strContains p.content "cats" = true
            ∧ x.id = p.id ∧ x.title = p.title)
      ∧ search strContains ⟨"adm", "Adm", true⟩ "cats"
          ⟨[⟨1, "cats", "cats here", "<p>cats here</p>", 0, false, "a"⟩], 2, 1⟩
        = .ok [⟨1, "cats"⟩] :=
  search_take10_nonHidden_and_match strContains ⟨"bob", "Bob", false⟩ ⟨"adm", "Adm", true⟩
    "cats" ⟨[⟨1, "cats", "cats here", "<p>cats here</p>", 0, false, "a"⟩], 2, 1⟩
    [⟨1, "cats"⟩] (by rfl)

/-- C6: feed returns a page whose posts all pass the hidden filter (all
non-hidden for a non-admin caller; no hidden restriction for an admin),
ordered by creation time descending and filtered by author when requested,
together with a postCount computed with the same filter and not limited by
the pagination parameters. -/
theorem feed_page_properties (ctx : Ctx) (input : Option FeedInput) (store : Store)
    (r : FeedResult) (h : feed ctx input store = .ok r) :
    (ctx.isUserAdmin = false → ∀ p ∈ r.posts, p.hidden = false)
      ∧ List.Sorted createdAtDesc r.posts
      ∧ (∀ aid, input.bind FeedInput.authorId = some aid →
          ∀ p ∈ r.posts, p.authorId = aid)
      ∧ r.postCount
          = (store.posts.filter (feedWhere ctx (input.bind FeedInput.authorId))).length
      ∧ (ctx.isUserAdmin = true →
          r.postCount
            = (store.posts.filter (authorFilter (input.bind FeedInput.authorId))).length) := by
  unfold feed at h
  split at h
  · exact Except.noConfusion h
  · injection h with h
    subst h
    have hback : ∀ p, p ∈ ((List.insertionSort createdAtDesc
          (store.posts.filter (feedWhere ctx (input.bind FeedInput.authorId)))).drop
            ((input.bind FeedInput.skip).getD 0)).take ((input.bind FeedInput.take).getD 50)
        → p ∈ store.posts
          ∧ feedWhere ctx (input.bind FeedInput.authorId) p = true := by
      intro p hp
      have h1 := List.mem_of_mem_drop (List.mem_of_mem_take hp)
      have h2 := (List.perm_insertionSort createdAtDesc
        (store.posts.filter (feedWhere ctx (input.bind FeedInput.authorId)))).mem_iff.mp h1
      exact List.mem_filter.mp h2
    refine ⟨?_, ?_, ?_, rfl, ?_⟩
    · intro hadm p hp
      have hcond := (hback p hp).2
      rw [feedWhere, hadm] at hcond
      simp only [if_neg (by simp : ¬ (false : Bool) = true), Bool.and_eq_true,
        beq_iff_eq] at hcond
      exact hcond.1
    · exact List.Pairwise.sublist
        ((List.take_sublist _ _).trans (List.drop_sublist _ _))
        (List.sorted_insertionSort createdAtDesc _)
    · intro aid haid p hp
      have hcond := (hback p hp).2
      rw [feedWhere, haid] at hcond
      simp only [authorFilter, Bool.and_eq_true, beq_iff_eq] at hcond
      exact hcond.2
    · intro hadm
      show (store.posts.filter (feedWhere ctx (input.bind FeedInput.authorId))).length = _
      congr 1
      apply List.filter_congr
      intro p _
      rw [feedWhere, hadm]
      simp

/-- Witness for C6: a non-admin caller's feed over a store holding a hidden
post returns only the visible posts, newest first, with the unpaginated
count. -/
theorem feed_page_properties_witness :
    ((false : Bool) = false →
        ∀ p ∈ FeedResult.posts ⟨[⟨3, "t3", "c3", "h3", 3, false, "carol"⟩,
            ⟨1, "t1", "c1", "h1", 1, false, "alice"⟩], 2⟩, p.hidden = false)
      ∧ List.Sorted createdAtDesc (FeedResult.posts ⟨[⟨3, "t3", "c3", "h3", 3, false, "carol"⟩,
          ⟨1, "t1", "c1", "h1", 1, false, "alice"⟩], 2⟩)
      ∧ (∀ aid, (none : Option FeedInput).bind FeedInput.authorId = some aid →
          ∀ p ∈ FeedResult.posts ⟨[⟨3, "t3", "c3", "h3", 3, false, "carol"⟩,
              ⟨1, "t1", "c1", "h1", 1, false, "alice"⟩], 2⟩, p.authorId = aid)
      ∧ FeedResult.postCount ⟨[⟨3, "t3", "c3", "h3", 3, false, "carol"⟩,
            ⟨1, "t1", "c1", "h1", 1, false, "alice"⟩], 2⟩
          = ((Store.posts ⟨[⟨1, "t1", "c1", "h1", 1, false, "alice"⟩,
                ⟨2, "t2", "c2", "h2", 2, true, "alice"⟩,
                ⟨3, "t3", "c3", "h3", 3, false, "carol"⟩], 4, 4⟩).filter
              (feedWhere ⟨"bob", "Bob", false⟩
                ((none : Option FeedInput).bind FeedInput.authorId))).length
      ∧ ((false : Bool) = true →
          FeedResult.postCount ⟨[⟨3, "t3", "c3", "h3", 3, false, "carol"⟩,
              ⟨1, "t1", "c1", "h1", 1, false, "alice"⟩], 2⟩
            = ((Store.posts ⟨[⟨1, "t1", "c1", "h1", 1, false, "alice"⟩,
                  ⟨2, "t2", "c2", "h2", 2, true, "alice"⟩,
                  ⟨3, "t3", "c3", "h3", 3, false, "carol"⟩], 4, 4⟩).filter
                (authorFilter ((none : Option FeedInput).bind FeedInput.authorId))).length) :=
  feed_page_properties ⟨"bob", "Bob", false⟩ none
    ⟨[⟨1, "t1", "c1", "h1", 1, false, "alice"⟩,
      ⟨2, "t2", "c2", "h2", 2, true, "alice"⟩,
      ⟨3, "t3", "c3", "h3", 3, false, "carol"⟩], 4, 4⟩
    ⟨[⟨3, "t3", "c3", "h3", 3, false, "carol"⟩,
      ⟨1, "t1", "c1", "h1", 1, false, "alice"⟩], 2⟩ (by rfl)

/-- C3: edit and delete fail with FORBIDDEN — not NotFound — whenever the
caller is not the post's author, including when no post with that id exists,
and the store (hence the post's title, content and contentHtml) is returned
unchanged. -/
theorem edit_delete_forbidden (libs : MarkdownLibs) (ctx : Ctx) (id : Nat)
    (data : AddInput) (store : Store)
    (ht : data.title.isEmpty = false) (hc : data.content.isEmpty = false)
    (hauthor : ∀ p, findUniquePost store id = some p → p.authorId ≠ ctx.userId) :
    editPost libs ctx id data store = (.error forbiddenErr, store)
      ∧ deletePost ctx id store = (.error forbiddenErr, store)
      ∧ forbiddenErr.code = TRPCErrorCode.FORBIDDEN := by
  have hbelongs : ((findUniquePost store id).map PostRecord.authorId
      == some ctx.userId) = false := by
    rcases hf : findUniquePost store id with _ | p
    · rfl
    · simp only [Option.map_some', beq_eq_false_iff_ne, ne_eq, Option.some.injEq]
      exact hauthor p hf
  refine ⟨?_, ?_, rfl⟩
  · unfold editPost
    rw [if_neg (by simp [ht, hc]), if_pos (by simp [hbelongs])]
  · unfold deletePost
    rw [if_pos (by simp [hbelongs])]

/-- Witness for C3: a caller who does not own the stored post gets FORBIDDEN
from both edit and delete, with the store unchanged. -/
theorem edit_delete_forbidden_witness :
    editPost ⟨fun s => s, fun s => s⟩ ⟨"bob", "Bob", false⟩ 7 ⟨"t2", "c2"⟩
        ⟨[⟨7, "t", "c", "c", 0, false, "alice"⟩], 8, 1⟩
      = (.error forbiddenErr, ⟨[⟨7, "t", "c", "c", 0, false, "alice"⟩], 8, 1⟩)
      ∧ deletePost ⟨"bob", "Bob", false⟩ 7 ⟨[⟨7, "t", "c", "c", 0, false, "alice"⟩], 8, 1⟩
        = (.error forbiddenErr, ⟨[⟨7, "t", "c", "c", 0, false, "alice"⟩], 8, 1⟩)
      ∧ forbiddenErr.code = TRPCErrorCode.FORBIDDEN :=
  edit_delete_forbidden ⟨fun s => s, fun s => s⟩ ⟨"bob", "Bob", false⟩ 7 ⟨"t2", "c2"⟩
    ⟨[⟨7, "t", "c", "c", 0, false, "alice"⟩], 8, 1⟩ (by rfl) (by rfl)
    (by
      intro p hp
      have h2 : some (⟨7, "t", "c", "c", 0, false, "alice"⟩ : PostRecord) = some p := hp
      injection h2 with h3
      subst h3
      decide)

/-- C7: add persists the new post and then notifies the external channel
best-effort: the outcome of the notification collaborator never changes the
call's result — the created post is returned and persisted regardless — and
the dispatched message carries the created (already persisted) post and the
author name. -/
theorem add_persists_then_notifies (libs : MarkdownLibs) (ctx : Ctx)
    (input : AddInput) (store : Store) (outcome outcome2 : Except String Unit)
    (ht : input.title.isEmpty = false) (hc : input.content.isEmpty = false) :
    addPost libs ctx input outcome store = addPost libs ctx input outcome2 store
      ∧ ∃ p st msgs, addPost libs ctx input outcome store = (.ok p, st, msgs)
          ∧ p ∈ st.posts ∧ msgs = [(p, ctx.userName)] := by
  have hval : (input.title.isEmpty || input.content.isEmpty) = false := by
    rw [ht, hc]
    rfl
  constructor
  · unfold addPost
    rw [if_neg (by simp [hval]), if_neg (by simp [hval])]
    rcases outcome with _ | _ <;> rcases outcome2 with _ | _ <;> rfl
  · unfold addPost
    rw [if_neg (by simp [hval])]
    refine ⟨_, _, _, rfl, by simp, ?_⟩
    rcases outcome with _ | _ <;> rfl

/-- Witness for C7: a failing notification collaborator leaves the result of
add identical to that with a succeeding one, and the post is persisted and
dispatched. -/
theorem add_persists_then_notifies_witness :
    addPost ⟨fun s => s, fun s => s⟩ ⟨"bob", "Bob", false⟩ ⟨"t", "c"⟩
          (Except.error "slack down") ⟨[], 0, 0⟩
        = addPost ⟨fun s => s, fun s => s⟩ ⟨"bob", "Bob", false⟩ ⟨"t", "c"⟩
          (Except.ok ()) ⟨[], 0, 0⟩
      ∧ ∃ p st msgs, addPost ⟨fun s => s, fun s => s⟩ ⟨"bob", "Bob", false⟩ ⟨"t", "c"⟩
          (Except.error "slack down") ⟨[], 0, 0⟩ = (.ok p, st, msgs)
          ∧ p ∈ st.posts ∧ msgs = [(p, "Bob")] :=
  add_persists_then_notifies ⟨fun s => s, fun s => s⟩ ⟨"bob", "Bob", false⟩ ⟨"t", "c"⟩
    ⟨[], 0, 0⟩ (Except.error "slack down") (Except.ok ()) (by rfl) (by rfl)

theorem find?_id_map_replace (l : List PostRecord) (id : Nat) (newP : PostRecord)
    (hid : newP.id = id) (old : PostRecord)
    (hfind : l.find? (fun p => p.id == id) = some old) :
    (l.map (fun p => if p.id == id then newP else p)).find? (fun p => p.id == id)
      = some newP := by
  induction l with
  | nil => exact Option.noConfusion hfind
  | cons q l ih =>
    simp only [List.map_cons]
    by_cases hq : (q.id == id) = true
    · rw [if_pos hq]
      exact List.find?_cons_of_pos _ (by simp [hid])
    · rw [if_neg hq]
      rw [List.find?_cons_of_neg _ (by simp [hq])]
      apply ih
      rwa [List.find?_cons_of_neg _ (by simp [hq])] at hfind

theorem editPost_ok_inv (libs : MarkdownLibs) (ctx : Ctx) (id : Nat) (data : AddInput)
    (store : Store) (p : PostRecord) (st : Store)
    (h : editPost libs ctx id data store = (.ok p, st)) :
    ∃ old, findUniquePost store id = some old
      ∧ p = { old with
          title := data.title
          content := data.content
          contentHtml := markdownToHtml libs data.content }
      ∧ st = { store with
          posts := store.posts.map (fun q => if q.id == id then p else q) } := by
  unfold editPost at h
  split at h
  · exact Except.noConfusion (congrArg Prod.fst h)
  · split at h
    · exact Except.noConfusion (congrArg Prod.fst h)
    · split at h
      · exact Except.noConfusion (congrArg Prod.fst h)
      · rename_i old hold
        injection h with h1 h2
        injection h1 with h1
        subst h1
        subst h2
        exact ⟨old, hold, rfl, rfl⟩

theorem addPost_ok_inv (libs : MarkdownLibs) (ctx : Ctx) (input : AddInput)
    (outcome : Except String Unit) (store : Store) (p : PostRecord) (st : Store)
    (msgs : List (PostRecord × String))
    (h : addPost libs ctx input outcome store = (.ok p, st, msgs)) :
    p = ⟨store.nextId, input.title, input.content, markdownToHtml libs input.content,
        store.clock, false, ctx.userId⟩
      ∧ st = { store with
          posts := store.posts ++ [p]
          nextId := store.nextId + 1
          clock := store.clock + 1 }
      ∧ msgs = [(p, ctx.userName)] := by
  unfold addPost at h
  split at h
  · exact Except.noConfusion (congrArg Prod.fst h)
  · injection h with h1 h23
    injection h23 with h2 h3
    injection h1 with h1
    subst h1
    refine ⟨rfl, h2.symm, ?_⟩
    rw [← h3]
    rcases outcome with _ | _ <;> rfl

/-- C5: after every successful add and every successful edit, the persisted
post's contentHtml is exactly the rendering of its persisted content;
contentHtml is derived at write time, never settable independently of
content. -/
theorem contentHtml_always_rendered (libs : MarkdownLibs) (ctx : Ctx)
    (input : AddInput) (outcome : Except String Unit) (id : Nat) (data : AddInput)
    (store : Store)
    (hfresh : ∀ q ∈ store.posts, q.id ≠ store.nextId) :
    (∀ p st msgs, addPost libs ctx input outcome store = (.ok p, st, msgs) →
        p.contentHtml = markdownToHtml libs p.content
          ∧ findUniquePost st p.id = some p)
      ∧ (∀ p st, editPost libs ctx id data store = (.ok p, st) →
          p.contentHtml = markdownToHtml libs p.content
            ∧ findUniquePost st id = some p) := by
  constructor
  · intro p st msgs h
    obtain ⟨hp, hst, -⟩ := addPost_ok_inv libs ctx input outcome store p st msgs h
    have hid : p.id = store.nextId := by rw [hp]
    refine ⟨by rw [hp], ?_⟩
    rw [hst]
    unfold findUniquePost
    show (store.posts ++ [p]).find? (fun q => q.id == p.id) = some p
    rw [List.find?_append]
    have hnone : store.posts.find? (fun q => q.id == p.id) = none := by
      rw [List.find?_eq_none]
      intro q hq
      simp only [beq_iff_eq]
      rw [hid]
      exact hfresh q hq
    rw [hnone]
    simp
  · intro p st h
    obtain ⟨old, hold, hp, hst⟩ := editPost_ok_inv libs ctx id data store p st h
    have hid : p.id = id := by
      have := List.find?_some hold
      simp only [beq_iff_eq] at this
      rw [hp]
      exact this
    refine ⟨by rw [hp], ?_⟩
    rw [hst]
    show (store.posts.map (fun q => if q.id == id then p else q)).find?
        (fun q => q.id == id) = some p
    exact find?_id_map_replace store.posts id p hid old hold

/-- Witness for C5: over an empty store with identity collaborators, the post
created by add carries contentHtml equal to the rendering of its content and
is persisted under its id. -/
theorem contentHtml_always_rendered_witness :
    PostRecord.contentHtml ⟨0, "t", "c", "c", 0, false, "bob"⟩
        = markdownToHtml ⟨fun s => s, fun s => s⟩
            (PostRecord.content ⟨0, "t", "c", "c", 0, false, "bob"⟩)
      ∧ findUniquePost ⟨[⟨0, "t", "c", "c", 0, false, "bob"⟩], 1, 1⟩
          (PostRecord.id ⟨0, "t", "c", "c", 0, false, "bob"⟩)
        = some ⟨0, "t", "c", "c", 0, false, "bob"⟩ :=
  (contentHtml_always_rendered ⟨fun s => s, fun s => s⟩ ⟨"bob", "Bob", false⟩
      ⟨"t", "c"⟩ (Except.ok ()) 1 ⟨"x", "y"⟩ ⟨[], 0, 0⟩
      (by intro q hq; exact absurd hq (List.not_mem_nil q))).1
    ⟨0, "t", "c", "c", 0, false, "bob"⟩ ⟨[⟨0, "t", "c", "c", 0, false, "bob"⟩], 1, 1⟩
    [(⟨0, "t", "c", "c", 0, false, "bob"⟩, "Bob")] (by rfl)
